import Mathlib

/-
  Verification of gpp_test_utils.hpp (optimal_learning, EPI/src/cpp).

  The repository provides the header only: the interface
  PingableMatrixInputVectorOutputInterface, the inline class
  MockExpectedImprovementEnvironment, and declarations (with documented
  contracts) of the comparators and of PingDerivative.  Function bodies that
  live in gpp_test_utils.cpp are not part of the sources; those are modelled
  from the spec (each such definition carries a doc comment starting with
  "Modelled from the spec:").  The MockExpectedImprovementEnvironment code is
  inline in the header and is embedded from the source directly; only the
  external random engine (gpp_random.hpp / boost::uniform_real) is abstract.
-/

namespace optimal_learning

open scoped Classical

/-- Embedding of the abstract interface `PingableMatrixInputVectorOutputInterface`
(gpp_test_utils.hpp, lines 59-140).  `num_rows`/`num_cols` are the values
written by `GetInputSizes`, `num_outputs` is `GetOutputSize()`.  The stateful
pair `EvaluateAndStoreAnalyticGradient` / `GetAnalyticGradient` is collapsed
into a single function of the stored input matrix: `GetAnalyticGradient X d i k`
is the value returned after `EvaluateAndStoreAnalyticGradient(X, _)`.
Input matrices are total maps from (row, col) indices; only indices below
`num_rows`/`num_cols` are ever consulted. -/
structure PingableMatrixInputVectorOutputInterface where
  num_rows : ℕ
  num_cols : ℕ
  num_outputs : ℕ
  EvaluateFunction : (ℕ → ℕ → ℝ) → ℕ → ℝ
  GetAnalyticGradient : (ℕ → ℕ → ℝ) → ℕ → ℕ → ℕ → ℝ

/-- Perturbation of the single coordinate (d, i) of the input matrix by `h`:
the matrix X + h·e_{d,i} used for the central finite differences. -/
def perturb (X : ℕ → ℕ → ℝ) (d i : ℕ) (h : ℝ) : ℕ → ℕ → ℝ :=
  fun d' i' => if d' = d ∧ i' = i then X d' i' + h else X d' i'

/-- Modelled from the spec: the central-difference estimate
D(h) = (f_k(X + h·e_{d,i}) − f_k(X − h·e_{d,i})) / (2h) formed by
PingDerivative (body in gpp_test_utils.cpp, not in the sources). -/
noncomputable def fdEstimate (evaluator : PingableMatrixInputVectorOutputInterface)
    (X : ℕ → ℕ → ℝ) (d i k : ℕ) (h : ℝ) : ℝ :=
  (evaluator.EvaluateFunction (perturb X d i h) k
    - evaluator.EvaluateFunction (perturb X d i (-h)) k) / (2 * h)

/-- Modelled from the spec: the finite-difference error
e(h) = |D(h) − analytic gradient| at step size `h`. -/
noncomputable def pingError (evaluator : PingableMatrixInputVectorOutputInterface)
    (X : ℕ → ℕ → ℝ) (d i k : ℕ) (h : ℝ) : ℝ :=
  |fdEstimate evaluator X d i k h - evaluator.GetAnalyticGradient X d i k|

/-- Modelled from the spec: the observed convergence rate
log(e(h1)/e(h2)) / log(h1/h2), expected to be ≈ 2 for a correct gradient. -/
noncomputable def observedRate (evaluator : PingableMatrixInputVectorOutputInterface)
    (X : ℕ → ℕ → ℝ) (d i k : ℕ) (h1 h2 : ℝ) : ℝ :=
  Real.log (pingError evaluator X d i k h1 / pingError evaluator X d i k h2)
    / Real.log (h1 / h2)

/-- The magnitude ‖X‖ of the input matrix (Frobenius norm over the declared
num_rows × num_cols block), the scale reference of the input_output_ratio
gate (header line 373: for ||analytic_gradient||/||input|| below the ratio,
ping testing is not performed). -/
noncomputable def inputNorm (X : ℕ → ℕ → ℝ) (rows cols : ℕ) : ℝ :=
  Real.sqrt (∑ p in Finset.range rows ×ˢ Finset.range cols, (X p.1 p.2) ^ 2)

/-- Per-entry verdicts of the ping test (spec §4.3:
{pass-fine, pass-relaxed, skip-ill-scaled, fail}). -/
inductive PingVerdict where
  | passFine : PingVerdict
  | passRelaxed : PingVerdict
  | skip : PingVerdict
  | fail : PingVerdict
deriving DecidableEq

/-- Modelled from the spec: the verdict PingDerivative assigns to the gradient
entry (d, i, k) (body in gpp_test_utils.cpp, not in the sources).  Following
spec §4.3: the entry is skipped when |analytic| is negligible relative to the
input magnitude (the gate |analytic| < ratio·‖X‖, the multiplicative form of
||analytic||/||input|| < ratio from header line 373); otherwise it is a fine
pass when the observed rate deviates from 2 by at most rate_tolerance_fine,
a relaxed pass when it deviates by at most rate_tolerance_relaxed and e(h2)
is itself already small (the empirically tuned smallness heuristic, which the
spec leaves open, is the abstract predicate parameter `errSmall`), and a fail
otherwise. -/
noncomputable def entryVerdict (evaluator : PingableMatrixInputVectorOutputInterface)
    (X : ℕ → ℕ → ℝ) (h1 h2 rate_tolerance_fine rate_tolerance_relaxed : ℝ)
    ( input_output_ratio : ℝ) (errSmall : ℝ → Prop) (d i k : ℕ) : PingVerdict :=
  if |evaluator.GetAnalyticGradient X d i k|
      < input_output_ratio * inputNorm X evaluator.num_rows evaluator.num_cols then
    PingVerdict.skip
  else if |observedRate evaluator X d i k h1 h2 - 2| ≤ rate_tolerance_fine then
    PingVerdict.passFine
  else if |observedRate evaluator X d i k h1 h2 - 2| ≤ rate_tolerance_relaxed
      ∧ errSmall (pingError evaluator X d i k h2) then
    PingVerdict.passRelaxed
  else
    PingVerdict.fail

/-- Modelled from the spec: `PingDerivative` (declared at header lines 332-378,
body in gpp_test_utils.cpp, not in the sources).  Iterates over every gradient
entry (row d, col i, output k), accumulating 1 for each entry whose verdict is
fail, and returns the total.  `h1`/`h2` are epsilon[0]/epsilon[1]. -/
noncomputable def PingDerivative (evaluator : PingableMatrixInputVectorOutputInterface)
    (X : ℕ → ℕ → ℝ) (h1 h2 rate_tolerance_fine rate_tolerance_relaxed : ℝ)
    ( input_output_ratio : ℝ) (errSmall : ℝ → Prop) : ℕ :=
  List.foldl (fun acc d =>
    List.foldl (fun acc i =>
      List.foldl (fun acc k =>
        acc + (if entryVerdict evaluator X h1 h2 rate_tolerance_fine
            rate_tolerance_relaxed input_output_ratio errSmall d i k
            = PingVerdict.fail then 1 else 0))
        acc (List.range evaluator.num_outputs))
      acc (List.range evaluator.num_cols))
    0 (List.range evaluator.num_rows)

/-- The full index set of gradient entries: all (d, i, k) with d < num_rows,
i < num_cols, k < num_outputs. -/
def pingIndexSet (evaluator : PingableMatrixInputVectorOutputInterface) :
    Finset (ℕ × ℕ × ℕ) :=
  Finset.range evaluator.num_rows
    ×ˢ (Finset.range evaluator.num_cols ×ˢ Finset.range evaluator.num_outputs)

/-- The set of gradient entries whose ping verdict is fail. -/
noncomputable def failSet (evaluator : PingableMatrixInputVectorOutputInterface)
    (X : ℕ → ℕ → ℝ) (h1 h2 rate_tolerance_fine rate_tolerance_relaxed : ℝ)
    ( input_output_ratio : ℝ) (errSmall : ℝ → Prop) : Finset (ℕ × ℕ × ℕ) :=
  (pingIndexSet evaluator).filter (fun t =>
    entryVerdict evaluator X h1 h2 rate_tolerance_fine rate_tolerance_relaxed
      input_output_ratio errSmall t.1 t.2.1 t.2.2 = PingVerdict.fail)

lemma foldl_add_eq {α : Type} (g : α → ℕ) (l : List α) (a : ℕ) :
    List.foldl (fun acc x => acc + g x) a l = a + (l.map g).sum := by
  induction l generalizing a with
  | nil => simp
  | cons x xs ih => simp [List.foldl_cons, ih (a + g x), Nat.add_assoc]

lemma listRange_map_sum (n : ℕ) (g : ℕ → ℕ) :
    ((List.range n).map g).sum = ∑ x in Finset.range n, g x := by
  induction n with
  | zero => simp
  | succ m ih => simp [List.range_succ, Finset.sum_range_succ, ih]

/-- The loop form of PingDerivative equals the triple sum of per-entry fail
indicators. -/
lemma pingDerivative_eq_sum (evaluator : PingableMatrixInputVectorOutputInterface)
    (X : ℕ → ℕ → ℝ) (h1 h2 tf tr r : ℝ) (errSmall : ℝ → Prop) :
    PingDerivative evaluator X h1 h2 tf tr r errSmall =
      ∑ d in Finset.range evaluator.num_rows, ∑ i in Finset.range evaluator.num_cols,
        ∑ k in Finset.range evaluator.num_outputs,
          (if entryVerdict evaluator X h1 h2 tf tr r errSmall d i k
            = PingVerdict.fail then 1 else 0) := by
  unfold PingDerivative
  have hk : ∀ d i a, List.foldl (fun acc k =>
      acc + (if entryVerdict evaluator X h1 h2 tf tr r errSmall d i k
        = PingVerdict.fail then 1 else 0)) a (List.range evaluator.num_outputs)
      = a + ∑ k in Finset.range evaluator.num_outputs,
          (if entryVerdict evaluator X h1 h2 tf tr r errSmall d i k
            = PingVerdict.fail then 1 else 0) := by
    intro d i a
    rw [foldl_add_eq, listRange_map_sum]
  have hi : ∀ d a, List.foldl (fun acc i =>
      List.foldl (fun acc k =>
        acc + (if entryVerdict evaluator X h1 h2 tf tr r errSmall d i k
          = PingVerdict.fail then 1 else 0)) acc (List.range evaluator.num_outputs))
      a (List.range evaluator.num_cols)
      = a + ∑ i in Finset.range evaluator.num_cols,
          ∑ k in Finset.range evaluator.num_outputs,
            (if entryVerdict evaluator X h1 h2 tf tr r errSmall d i k
              = PingVerdict.fail then 1 else 0) := by
    intro d a
    have : (fun acc i => List.foldl (fun acc k =>
        acc + (if entryVerdict evaluator X h1 h2 tf tr r errSmall d i k
          = PingVerdict.fail then 1 else 0)) acc (List.range evaluator.num_outputs))
        = fun acc i => acc + ∑ k in Finset.range evaluator.num_outputs,
            (if entryVerdict evaluator X h1 h2 tf tr r errSmall d i k
              = PingVerdict.fail then 1 else 0) := by
      funext acc i
      exact hk d i acc
    rw [this, foldl_add_eq, listRange_map_sum]
  have hd : (fun acc d => List.foldl (fun acc i =>
      List.foldl (fun acc k =>
        acc + (if entryVerdict evaluator X h1 h2 tf tr r errSmall d i k
          = PingVerdict.fail then 1 else 0)) acc (List.range evaluator.num_outputs))
      acc (List.range evaluator.num_cols))
      = fun acc d => acc + ∑ i in Finset.range evaluator.num_cols,
          ∑ k in Finset.range evaluator.num_outputs,
            (if entryVerdict evaluator X h1 h2 tf tr r errSmall d i k
              = PingVerdict.fail then 1 else 0) := by
    funext acc d
    exact hi d acc
  rw [hd, foldl_add_eq, listRange_map_sum]
  simp

/-- A trivial pingable instance whose analytic gradient is identically 0:
a 1 × 1 input, one output, constant function. -/
def pingZero : PingableMatrixInputVectorOutputInterface :=
  ⟨1, 1, 1, fun _ _ => 0, fun _ _ _ _ => 0⟩

/-- A pingable instance for f(X) = X_{0,0} with the exact analytic gradient 1. -/
def pingLinear : PingableMatrixInputVectorOutputInterface :=
  ⟨1, 1, 1, fun X _ => X 0 0, fun _ _ _ _ => 1⟩

/-- The all-ones input matrix. -/
def onesMatrix : ℕ → ℕ → ℝ := fun _ _ => 1

lemma inputNorm_ones_one_one : inputNorm onesMatrix 1 1 = 1 := by
  simp [inputNorm, Finset.sum_product, onesMatrix]

/-- Claim C1: for every implementer, point set, step-size pair and tolerance
set, PingDerivative returns the number of gradient entries (d, i, k) whose
verdict is fail; entries gated by the input_output_ratio test (|analytic|
negligible relative to the input magnitude) receive the skip verdict — never
pass or fail — whatever their finite-difference disagreement, so they never
contribute to the returned count. -/
theorem claim_C1 (evaluator : PingableMatrixInputVectorOutputInterface)
    (X : ℕ → ℕ → ℝ) (h1 h2 tf tr r : ℝ) (eS : ℝ → Prop) :
    PingDerivative evaluator X h1 h2 tf tr r eS
      = (failSet evaluator X h1 h2 tf tr r eS).card
    ∧ ∀ d i k, |evaluator.GetAnalyticGradient X d i k|
        < r * inputNorm X evaluator.num_rows evaluator.num_cols →
      entryVerdict evaluator X h1 h2 tf tr r eS d i k = PingVerdict.skip := by
  constructor
  · rw [pingDerivative_eq_sum]
    rw [failSet, Finset.card_filter, pingIndexSet, Finset.sum_product]
    refine Finset.sum_congr rfl (fun d _ => ?_)
    rw [Finset.sum_product]
  · intro d i k hlt
    simp only [entryVerdict]
    rw [if_pos hlt]

/-- Witness for claim C1 at a concrete skipped entry: the all-zero analytic
gradient on a 1 × 1 problem with points matrix of norm 1 and ratio 1 is gated,
and the verdict is skip. -/
theorem claim_C1_witness :
    entryVerdict pingZero onesMatrix 1 1 1 1 1 (fun _ => True) 0 0 0
      = PingVerdict.skip := by
  refine (claim_C1 pingZero onesMatrix 1 1 1 1 1 (fun _ => True)).2 0 0 0 ?_
  have h : inputNorm onesMatrix pingZero.num_rows pingZero.num_cols = 1 :=
    inputNorm_ones_one_one
  rw [h]
  norm_num [pingZero]

/-- Claim C2: for a non-skipped entry, the verdict is a fine pass exactly when
the observed rate log(e(h1)/e(h2)) / log(h1/h2) — built from the central
differences D(h) = (f_k(X+h·e_{d,i}) − f_k(X−h·e_{d,i}))/(2h) and the errors
e(h) = |D(h) − analytic| — deviates from 2 by at most rate_tolerance_fine. -/
theorem claim_C2 (evaluator : PingableMatrixInputVectorOutputInterface)
    (X : ℕ → ℕ → ℝ) (h1 h2 tf tr r : ℝ) (eS : ℝ → Prop) (d i k : ℕ)
    (hskip : ¬ |evaluator.GetAnalyticGradient X d i k|
      < r * inputNorm X evaluator.num_rows evaluator.num_cols) :
    entryVerdict evaluator X h1 h2 tf tr r eS d i k = PingVerdict.passFine
      ↔ |Real.log
            (|(evaluator.EvaluateFunction (perturb X d i h1) k
                - evaluator.EvaluateFunction (perturb X d i (-h1)) k) / (2 * h1)
              - evaluator.GetAnalyticGradient X d i k|
            / |(evaluator.EvaluateFunction (perturb X d i h2) k
                - evaluator.EvaluateFunction (perturb X d i (-h2)) k) / (2 * h2)
              - evaluator.GetAnalyticGradient X d i k|)
          / Real.log (h1 / h2) - 2| ≤ tf := by
  show entryVerdict evaluator X h1 h2 tf tr r eS d i k = PingVerdict.passFine
    ↔ |observedRate evaluator X d i k h1 h2 - 2| ≤ tf
  simp only [entryVerdict]
  rw [if_neg hskip]
  by_cases hf : |observedRate evaluator X d i k h1 h2 - 2| ≤ tf
  · rw [if_pos hf]
    exact iff_of_true rfl hf
  · rw [if_neg hf]
    refine iff_of_false ?_ hf
    split_ifs <;> simp

/-- Witness for claim C2: for f(X) = X_{0,0} with exact gradient 1 at the
all-ones point, both finite-difference errors vanish, the observed rate is the
junk value 0, and |0 − 2| ≤ 3 gives a fine pass. -/
theorem claim_C2_witness :
    entryVerdict pingLinear onesMatrix 1 1 3 4 0 (fun _ => True) 0 0 0
      = PingVerdict.passFine := by
  refine (claim_C2 pingLinear onesMatrix 1 1 3 4 0 (fun _ => True) 0 0 0 ?_).mpr ?_
  · norm_num [pingLinear]
  · simp only [pingLinear, perturb, onesMatrix]
    norm_num [Real.log_zero, Real.log_one]

/-- Claim C3: for a non-skipped entry that is not a fine pass, the verdict is
a relaxed pass exactly when the rate deviation is within
rate_tolerance_relaxed and e(h2) satisfies the smallness heuristic
(round-off-dominated regime); in every other case the verdict is fail. -/
theorem claim_C3 (evaluator : PingableMatrixInputVectorOutputInterface)
    (X : ℕ → ℕ → ℝ) (h1 h2 tf tr r : ℝ) (eS : ℝ → Prop) (d i k : ℕ)
    (hskip : ¬ |evaluator.GetAnalyticGradient X d i k|
      < r * inputNorm X evaluator.num_rows evaluator.num_cols)
    (hfine : ¬ |observedRate evaluator X d i k h1 h2 - 2| ≤ tf) :
    (entryVerdict evaluator X h1 h2 tf tr r eS d i k = PingVerdict.passRelaxed
      ↔ (|observedRate evaluator X d i k h1 h2 - 2| ≤ tr
          ∧ eS (pingError evaluator X d i k h2)))
    ∧ (entryVerdict evaluator X h1 h2 tf tr r eS d i k = PingVerdict.fail
      ↔ ¬ (|observedRate evaluator X d i k h1 h2 - 2| ≤ tr
          ∧ eS (pingError evaluator X d i k h2))) := by
  simp only [entryVerdict]
  rw [if_neg hskip, if_neg hfine]
  by_cases hr : |observedRate evaluator X d i k h1 h2 - 2| ≤ tr
      ∧ eS (pingError evaluator X d i k h2)
  · rw [if_pos hr]
    exact ⟨iff_of_true rfl hr, iff_of_false (by simp) (by simpa using hr)⟩
  · rw [if_neg hr]
    exact ⟨iff_of_false (by simp) hr, iff_of_true rfl hr⟩

/-- Witness for claim C3: same linear instance, with rate_tolerance_fine so
strict (0.1) that the junk rate 0 misses the fine pass, while |0 − 2| ≤ 3 and
the vanishing e(h2) give a relaxed pass. -/
theorem claim_C3_witness :
    entryVerdict pingLinear onesMatrix 1 1 (1/10) 3 0 (fun e => e ≤ 1) 0 0 0
      = PingVerdict.passRelaxed := by
  have hrate : observedRate pingLinear onesMatrix 0 0 0 1 1 = 0 := by
    simp only [observedRate, pingError, fdEstimate, pingLinear, perturb, onesMatrix]
    norm_num [Real.log_zero, Real.log_one]
  have herr : pingError pingLinear onesMatrix 0 0 0 1 = 0 := by
    simp only [pingError, fdEstimate, pingLinear, perturb, onesMatrix]
    norm_num
  refine ((claim_C3 pingLinear onesMatrix 1 1 (1/10) 3 0 (fun e => e ≤ 1) 0 0 0
    ?_ ?_).1).mpr ?_
  · norm_num [pingLinear]
  · rw [hrate]
    norm_num
  · rw [hrate, herr]
    norm_num

/-- Claim C6: a ping run accumulates over the complete (row, column, output)
index set — the returned count is the sum of one {0,1} contribution per entry,
every combination contributing, with no early exit — and the result is plain
data (a natural number at most the total number of entries), never an
exceptional condition. -/
theorem claim_C6 (evaluator : PingableMatrixInputVectorOutputInterface)
    (X : ℕ → ℕ → ℝ) (h1 h2 tf tr r : ℝ) (eS : ℝ → Prop) :
    PingDerivative evaluator X h1 h2 tf tr r eS
      = ∑ t in pingIndexSet evaluator,
          (if entryVerdict evaluator X h1 h2 tf tr r eS t.1 t.2.1 t.2.2
            = PingVerdict.fail then 1 else 0)
    ∧ PingDerivative evaluator X h1 h2 tf tr r eS
        ≤ evaluator.num_rows * evaluator.num_cols * evaluator.num_outputs := by
  have hsum : PingDerivative evaluator X h1 h2 tf tr r eS
      = ∑ t in pingIndexSet evaluator,
          (if entryVerdict evaluator X h1 h2 tf tr r eS t.1 t.2.1 t.2.2
            = PingVerdict.fail then 1 else 0) := by
    rw [pingDerivative_eq_sum, pingIndexSet, Finset.sum_product]
    refine Finset.sum_congr rfl (fun d _ => ?_)
    rw [Finset.sum_product]
  refine ⟨hsum, ?_⟩
  rw [hsum]
  calc ∑ t in pingIndexSet evaluator,
        (if entryVerdict evaluator X h1 h2 tf tr r eS t.1 t.2.1 t.2.2
          = PingVerdict.fail then 1 else 0)
      ≤ ∑ _t in pingIndexSet evaluator, 1 :=
        Finset.sum_le_sum (fun t _ => by split_ifs <;> norm_num)
    _ = (pingIndexSet evaluator).card := by simp
    _ = evaluator.num_rows * evaluator.num_cols * evaluator.num_outputs := by
        simp [pingIndexSet, Finset.card_product, Nat.mul_assoc]

/-- Modelled from the spec: `CheckDoubleWithin` (header lines 289-299, body in
gpp_test_utils.cpp, not in the sources): |value − truth| ≤ tolerance. -/
def CheckDoubleWithin (value truth tolerance : ℝ) : Prop :=
  |value - truth| ≤ tolerance

/-- Modelled from the spec: `CheckDoubleWithinRelative` (header lines 301-313,
body in gpp_test_utils.cpp, not in the sources):
|value − truth| / |truth| ≤ tolerance; if truth = 0.0, CheckDoubleWithin()
is performed. -/
def CheckDoubleWithinRelative (value truth tolerance : ℝ) : Prop :=
  if truth = 0 then CheckDoubleWithin value 0 tolerance
  else |value - truth| / |truth| ≤ tolerance

/-- Claim C9: for every value and tolerance, the relative comparator at truth
value 0 coincides with the absolute comparator at truth value 0. -/
theorem claim_C9 (value tolerance : ℝ) :
    (CheckDoubleWithinRelative value 0 tolerance
      ↔ CheckDoubleWithin value 0 tolerance) := by
  rw [CheckDoubleWithinRelative, if_pos rfl]

/-- The quadratic implementer of spec §8: f(X) = Σ_{d,i} X_{d,i}² (a single
output) with the exact analytic gradient ∂f/∂X_{d,i} = 2·X_{d,i}. -/
noncomputable def quadraticPing (rows cols : ℕ) :
    PingableMatrixInputVectorOutputInterface where
  num_rows := rows
  num_cols := cols
  num_outputs := 1
  EvaluateFunction := fun X _ =>
    ∑ p in Finset.range rows ×ˢ Finset.range cols, (X p.1 p.2) ^ 2
  GetAnalyticGradient := fun X d i _ => 2 * X d i

/-- The same quadratic function with a deliberately wrong analytic gradient
that is constant 0 everywhere (spec §8). -/
noncomputable def quadraticZeroGrad (rows cols : ℕ) :
    PingableMatrixInputVectorOutputInterface :=
  { quadraticPing rows cols with GetAnalyticGradient := fun _ _ _ _ => 0 }

lemma sum_perturb_sq (rows cols : ℕ) (X : ℕ → ℕ → ℝ) (d i : ℕ) (h : ℝ)
    (hd : d < rows) (hi : i < cols) :
    ∑ p in Finset.range rows ×ˢ Finset.range cols, (perturb X d i h p.1 p.2) ^ 2
      = (X d i + h) ^ 2
        + ∑ p in (Finset.range rows ×ˢ Finset.range cols).erase (d, i),
            (X p.1 p.2) ^ 2 := by
  have hmem : (d, i) ∈ Finset.range rows ×ˢ Finset.range cols :=
    Finset.mem_product.mpr ⟨Finset.mem_range.mpr hd, Finset.mem_range.mpr hi⟩
  rw [← Finset.add_sum_erase _ _ hmem]
  congr 1
  · simp [perturb]
  · refine Finset.sum_congr rfl (fun p hp => ?_)
    have hne : p ≠ (d, i) := Finset.ne_of_mem_erase hp
    have hcond : ¬(p.1 = d ∧ p.2 = i) := by
      rintro ⟨h1, h2⟩
      exact hne (Prod.ext h1 h2)
    simp [perturb, hcond]

lemma quadratic_fdEstimate (rows cols : ℕ) (X : ℕ → ℕ → ℝ) (d i k : ℕ)
    (h : ℝ) (hh : h ≠ 0) (hd : d < rows) (hi : i < cols) :
    fdEstimate (quadraticPing rows cols) X d i k h = 2 * X d i := by
  simp only [fdEstimate, quadraticPing]
  rw [sum_perturb_sq rows cols X d i h hd hi,
    sum_perturb_sq rows cols X d i (-h) hd hi]
  have h2 : (2 : ℝ) * h ≠ 0 := mul_ne_zero two_ne_zero hh
  rw [div_eq_iff h2]
  ring

lemma quadratic_pingError (rows cols : ℕ) (X : ℕ → ℕ → ℝ) (d i k : ℕ)
    (h : ℝ) (hh : h ≠ 0) (hd : d < rows) (hi : i < cols) :
    pingError (quadraticPing rows cols) X d i k h = 0 := by
  rw [pingError, quadratic_fdEstimate rows cols X d i k h hh hd hi]
  simp [quadraticPing]

/-- Claim C5: pinging f(X) = Σ X_{d,i}² with its exact analytic gradient 2X at
points drawn from [−5, 5], with epsilon = [1e-2, 1e-4],
rate_tolerance_fine = 0.5, rate_tolerance_relaxed = 2.0 and
input_output_ratio = 1e-12, yields failure count 0 (for any smallness
heuristic that accepts a vanishing error). -/
theorem claim_C5 (rows cols : ℕ) (X : ℕ → ℕ → ℝ) (eS : ℝ → Prop)
    (_hrange : ∀ d i, d < rows → i < cols → X d i ∈ Set.Icc (-5 : ℝ) 5)
    (hsmall : eS 0) :
    PingDerivative (quadraticPing rows cols) X (1e-2) (1e-4) 0.5 2 (1e-12) eS
      = 0 := by
  rw [pingDerivative_eq_sum]
  refine Finset.sum_eq_zero (fun d hd => Finset.sum_eq_zero (fun i hi =>
    Finset.sum_eq_zero (fun k _ => ?_)))
  have hd' : d < rows := Finset.mem_range.mp hd
  have hi' : i < cols := Finset.mem_range.mp hi
  suffices hv : entryVerdict (quadraticPing rows cols) X (1e-2) (1e-4) 0.5 2
      (1e-12) eS d i k ≠ PingVerdict.fail by
    simp [hv]
  by_cases hskip : |(quadraticPing rows cols).GetAnalyticGradient X d i k|
      < (1e-12) * inputNorm X (quadraticPing rows cols).num_rows
          (quadraticPing rows cols).num_cols
  · simp only [entryVerdict]
    rw [if_pos hskip]
    simp
  · have he1 : pingError (quadraticPing rows cols) X d i k (1e-2) = 0 :=
      quadratic_pingError rows cols X d i k (1e-2) (by norm_num) hd' hi'
    have he2 : pingError (quadraticPing rows cols) X d i k (1e-4) = 0 :=
      quadratic_pingError rows cols X d i k (1e-4) (by norm_num) hd' hi'
    have hrate : observedRate (quadraticPing rows cols) X d i k (1e-2) (1e-4)
        = 0 := by
      rw [observedRate, he1, he2]
      simp
    simp only [entryVerdict]
    rw [if_neg hskip, hrate, he2]
    rw [if_neg (by norm_num : ¬ |(0 : ℝ) - 2| ≤ 0.5)]
    rw [if_pos ⟨by norm_num, hsmall⟩]
    simp

/-- Witness for claim C5 on the concrete 1 × 1 problem at the all-ones point,
with the smallness heuristic e ≤ 1. -/
theorem claim_C5_witness :
    PingDerivative (quadraticPing 1 1) onesMatrix (1e-2) (1e-4) 0.5 2 (1e-12)
      (fun e => e ≤ 1) = 0 :=
  claim_C5 1 1 onesMatrix (fun e => e ≤ 1)
    (fun d i _ _ => by rw [Set.mem_Icc]; constructor <;> norm_num [onesMatrix])
    (by norm_num)

/-- With the constant-0 analytic gradient, every gradient entry is gated by
the input_output_ratio test whenever the input matrix has a nonzero in-range
coordinate: |analytic| = 0 is below ratio·‖X‖, so the entry is skipped and the
returned failure count is 0. -/
lemma quadraticZeroGrad_ping_zero (rows cols : ℕ) (X : ℕ → ℕ → ℝ)
    (h1 h2 tf tr : ℝ) (eS : ℝ → Prop) (d0 i0 : ℕ)
    (hd0 : d0 < rows) (hi0 : i0 < cols) (hx : X d0 i0 ≠ 0) :
    PingDerivative (quadraticZeroGrad rows cols) X h1 h2 tf tr (1e-12) eS
      = 0 := by
  have hnorm : 0 < inputNorm X rows cols := by
    rw [inputNorm]
    apply Real.sqrt_pos.mpr
    have hmem : (d0, i0) ∈ Finset.range rows ×ˢ Finset.range cols :=
      Finset.mem_product.mpr ⟨Finset.mem_range.mpr hd0, Finset.mem_range.mpr hi0⟩
    have hsq : (0 : ℝ) < (X d0 i0) ^ 2 :=
      lt_of_le_of_ne (sq_nonneg _) (Ne.symm (pow_ne_zero 2 hx))
    exact lt_of_lt_of_le hsq
      (Finset.single_le_sum (fun p _ => sq_nonneg (X p.1 p.2)) hmem)
  rw [pingDerivative_eq_sum]
  refine Finset.sum_eq_zero (fun d _ => Finset.sum_eq_zero (fun i _ =>
    Finset.sum_eq_zero (fun k _ => ?_)))
  have hskip : |(quadraticZeroGrad rows cols).GetAnalyticGradient X d i k|
      < (1e-12) * inputNorm X (quadraticZeroGrad rows cols).num_rows
          (quadraticZeroGrad rows cols).num_cols := by
    have : (quadraticZeroGrad rows cols).GetAnalyticGradient X d i k = 0 := rfl
    rw [this, abs_zero]
    show (0 : ℝ) < (1e-12) * inputNorm X rows cols
    exact mul_pos (by norm_num) hnorm
  suffices hv : entryVerdict (quadraticZeroGrad rows cols) X h1 h2 tf tr
      (1e-12) eS d i k ≠ PingVerdict.fail by
    simp [hv]
  simp only [entryVerdict]
  rw [if_pos hskip]
  simp

/-- Counterexample for claim C4 as stated: at the 1 × 1 all-ones point, the
wrong constant-0 analytic gradient makes PingDerivative return 0, while the
number of entries whose true gradient magnitude (|2·X_{d,i}| = 2) exceeds the
skip threshold 1e-12·‖X‖ is 1 — the two counts differ. -/
theorem claim_C4_counterexample :
    PingDerivative (quadraticZeroGrad 1 1) onesMatrix (1e-2) (1e-4) 0.5 2
      (1e-12) (fun e => e ≤ 1) = 0
    ∧ ((pingIndexSet (quadraticZeroGrad 1 1)).filter
        (fun t => (1e-12 : ℝ) * inputNorm onesMatrix 1 1
          < |2 * onesMatrix t.1 t.2.1|)).card = 1 := by
  constructor
  · exact quadraticZeroGrad_ping_zero 1 1 onesMatrix (1e-2) (1e-4) 0.5 2
      (fun e => e ≤ 1) 0 0 (by norm_num) (by norm_num)
      (by rw [onesMatrix]; norm_num)
  · rw [Finset.filter_true_of_mem]
    · simp [pingIndexSet, quadraticZeroGrad, quadraticPing]
    · intro t _
      rw [inputNorm_ones_one_one, onesMatrix]
      norm_num

/-- Claim C4, amended: with the deliberately wrong constant-0 analytic
gradient, PingDerivative with input_output_ratio = 1e-12 returns failure
count 0 whenever the point matrix has a nonzero in-range coordinate — the
zero analytic gradient puts every entry below the input_output_ratio gate, so
every entry is skipped and no entry is ever compared, regardless of the true
gradient's magnitude. -/
theorem claim_C4 (rows cols : ℕ) (X : ℕ → ℕ → ℝ) (h1 h2 tf tr : ℝ)
    (eS : ℝ → Prop) (d0 i0 : ℕ)
    (hd0 : d0 < rows) (hi0 : i0 < cols) (hx : X d0 i0 ≠ 0) :
    PingDerivative (quadraticZeroGrad rows cols) X h1 h2 tf tr (1e-12) eS
      = 0 :=
  quadraticZeroGrad_ping_zero rows cols X h1 h2 tf tr eS d0 i0 hd0 hi0 hx

/-- Witness for claim C4 (amended) at the 1 × 1 all-ones point with
epsilon = [1e-2, 1e-4] and the standard tolerances. -/
theorem claim_C4_witness :
    PingDerivative (quadraticZeroGrad 1 1) onesMatrix (1e-2) (1e-4) 0.5 2
      (1e-12) (fun e => e ≤ 1e-3) = 0 :=
  claim_C4 1 1 onesMatrix (1e-2) (1e-4) 0.5 2 (fun e => e ≤ 1e-3) 0 0
    (by norm_num) (by norm_num) (by rw [onesMatrix]; norm_num)

/-- Modelled from the spec: `UniformRandomGenerator` (gpp_random.hpp, not in
the sources; the engine is an external injected capability).  `seed` is the
constant the engine was seeded with; `engine` is the engine's abstract output
stream of raw draws in [0, 1); `pos` counts how often the engine has been
advanced. -/
structure UniformRandomGenerator where
  seed : ℕ
  engine : ℕ → ℝ
  pos : ℕ

/-- Modelled from the spec: one draw of `boost::uniform_real<double>` on the
stored range using the supplied engine — the raw engine output is mapped
affinely into [range.1, range.2] and the engine advances exactly once. -/
def UniformRandomGenerator.draw (g : UniformRandomGenerator) (range : ℝ × ℝ) :
    ℝ × UniformRandomGenerator :=
  (range.1 + (range.2 - range.1) * g.engine g.pos,
    { g with pos := g.pos + 1 })

/-- `n` successive uniform draws, in order, threading the generator. -/
def drawList (range : ℝ × ℝ) (g : UniformRandomGenerator) :
    ℕ → List ℝ × UniformRandomGenerator
  | 0 => ([], g)
  | Nat.succ m =>
    let p := g.draw range
    let q := drawList range p.2 m
    (p.1 :: q.1, q.2)

lemma drawList_closed (range : ℝ × ℝ) (g : UniformRandomGenerator) (n : ℕ) :
    drawList range g n
      = (List.ofFn (fun j : Fin n =>
          range.1 + (range.2 - range.1) * g.engine (g.pos + j)),
        { g with pos := g.pos + n }) := by
  induction n generalizing g with
  | zero => simp [drawList]
  | succ m ih =>
    rw [drawList, ih]
    refine Prod.ext ?_ ?_
    · rw [List.ofFn_succ]
      simp only [UniformRandomGenerator.draw]
      refine congrArg₂ List.cons (by norm_num) ?_
      refine congrArg List.ofFn ?_
      funext j
      have harg : g.pos + 1 + (j : ℕ) = g.pos + ((j : ℕ) + 1) := by omega
      simp only [Fin.val_succ, harg]
    · simp only [UniformRandomGenerator.draw]
      congr 1
      omega

/-- Embedding of the test fixture `MockExpectedImprovementEnvironment`
(gpp_test_utils.hpp, lines 155-254).  The four buffers are the member vectors;
`uniform_double_` is the stored range of the `boost::uniform_real` member. -/
structure MockExpectedImprovementEnvironment where
  dim : ℤ
  num_to_sample : ℤ
  num_sampled : ℤ
  points_to_sample_ : List ℝ
  points_sampled_ : List ℝ
  points_sampled_value_ : List ℝ
  current_point_ : List ℝ
  uniform_generator_ : UniformRandomGenerator
  uniform_double_ : ℝ × ℝ

/-- `kDefaultSeed = 314` (header line 159). -/
def kDefaultSeed : ℕ := 314

/-- `range_min = -5.0` (header line 160). -/
def range_min : ℝ := -5

/-- `range_max = 5.0` (header line 161). -/
def range_max : ℝ := 5

/-- The default constructor (header lines 167-177): all three size fields set
to the invalid sentinel −1, buffers pre-allocated to 20·4, 20·4, 20 and 4
zero entries, the owned generator seeded with kDefaultSeed, and the uniform
distribution prepared on [range_min, range_max].  The external engine stream
is the abstract parameter. -/
def MockExpectedImprovementEnvironment.construct (engine : ℕ → ℝ) :
    MockExpectedImprovementEnvironment where
  dim := -1
  num_to_sample := -1
  num_sampled := -1
  points_to_sample_ := List.replicate (20 * 4) 0
  points_sampled_ := List.replicate (20 * 4) 0
  points_sampled_value_ := List.replicate 20 0
  current_point_ := List.replicate 4 0
  uniform_generator_ := ⟨kDefaultSeed, engine, 0⟩
  uniform_double_ := (range_min, range_max)

/-- `std::vector<double>::resize(n)`: keep the first n entries, pad with
value-initialized (zero) entries up to length n. -/
def resizeList (l : List ℝ) (n : ℕ) : List ℝ :=
  l.take n ++ List.replicate (n - l.length) 0

lemma resizeList_length (l : List ℝ) (n : ℕ) : (resizeList l n).length = n := by
  simp [resizeList]
  omega

/-- Overwrite of the first `draws.length` buffer entries by the loop
`for (i = 0; i < draws.length; ++i) buf[i] = draws[i]`; entries past the
written prefix (present only if the loop bound is below the buffer length,
which cannot happen in a well-sized fixture) are kept. -/
def fillFirst (buf : List ℝ) (draws : List ℝ) : List ℝ :=
  draws ++ buf.drop draws.length

lemma fillFirst_length (buf draws : List ℝ) :
    (fillFirst buf draws).length = max buf.length draws.length := by
  simp [fillFirst]
  omega

lemma fillFirst_of_length_eq (buf draws : List ℝ)
    (h : draws.length = buf.length) : fillFirst buf draws = draws := by
  simp [fillFirst, List.drop_eq_nil_of_le (le_of_eq h.symm)]

/-- The resize condition of Initialize (header line 196): at least one of the
three size parameters differs from the fixture's current values. -/
def resizeTriggered (env : MockExpectedImprovementEnvironment)
    (dim_in num_to_sample_in num_sampled_in : ℤ) : Prop :=
  dim_in ≠ env.dim ∨ num_to_sample_in ≠ env.num_to_sample
    ∨ num_sampled_in ≠ env.num_sampled

instance (env : MockExpectedImprovementEnvironment) (a b c : ℤ) :
    Decidable (resizeTriggered env a b c) := by
  unfold resizeTriggered
  infer_instance

/-- The resize branch of Initialize (header lines 196-205): store the new
size parameters and resize all four buffers to num_to_sample·dim,
num_sampled·dim, num_sampled and dim entries. -/
def resizeBuffers (env : MockExpectedImprovementEnvironment)
    (dim_in num_to_sample_in num_sampled_in : ℤ) :
    MockExpectedImprovementEnvironment :=
  { env with
    dim := dim_in
    num_to_sample := num_to_sample_in
    num_sampled := num_sampled_in
    points_to_sample_ :=
      resizeList env.points_to_sample_ (num_to_sample_in * dim_in).toNat
    points_sampled_ :=
      resizeList env.points_sampled_ (num_sampled_in * dim_in).toNat
    points_sampled_value_ :=
      resizeList env.points_sampled_value_ num_sampled_in.toNat
    current_point_ := resizeList env.current_point_ dim_in.toNat }

/-- The refill loops of Initialize (header lines 207-221): overwrite the four
buffers in the fixed order points_to_sample_, points_sampled_,
points_sampled_value_, current_point_ with uniform draws on the stored
uniform_double_ range, one generator advance per scalar, with loop bounds
dim·num_to_sample, dim·num_sampled, num_sampled and dim. -/
def refillBuffers (env : MockExpectedImprovementEnvironment)
    (uniform_generator : UniformRandomGenerator) :
    MockExpectedImprovementEnvironment × UniformRandomGenerator :=
  let r := env.uniform_double_
  let p1 := drawList r uniform_generator ((env.dim * env.num_to_sample).toNat)
  let p2 := drawList r p1.2 ((env.dim * env.num_sampled).toNat)
  let p3 := drawList r p2.2 (env.num_sampled.toNat)
  let p4 := drawList r p3.2 (env.dim.toNat)
  ({ env with
      points_to_sample_ := fillFirst env.points_to_sample_ p1.1
      points_sampled_ := fillFirst env.points_sampled_ p2.1
      points_sampled_value_ := fillFirst env.points_sampled_value_ p3.1
      current_point_ := fillFirst env.current_point_ p4.1 },
    p4.2)

/-- `Initialize(dim_in, num_to_sample_in, num_sampled_in, uniform_generator)`
(header lines 195-222): resize only when a size parameter changed, then —
regardless — refill all four buffers.  The refill draws on the fixture's own
stored uniform_double_ range (untouched by the resize).  Returns the updated
fixture and the updated external generator. -/
def InitializeEnv (env : MockExpectedImprovementEnvironment)
    (dim_in num_to_sample_in num_sampled_in : ℤ)
    (uniform_generator : UniformRandomGenerator) :
    MockExpectedImprovementEnvironment × UniformRandomGenerator :=
  refillBuffers
    (if resizeTriggered env dim_in num_to_sample_in num_sampled_in then
      resizeBuffers env dim_in num_to_sample_in num_sampled_in
    else env)
    uniform_generator

/-- The three-argument overload of Initialize (header lines 191-193): uses the
fixture's own generator and stores its advanced state back. -/
def InitializeEnvSelf (env : MockExpectedImprovementEnvironment)
    (dim_in num_to_sample_in num_sampled_in : ℤ) :
    MockExpectedImprovementEnvironment :=
  let p := InitializeEnv env dim_in num_to_sample_in num_sampled_in
    env.uniform_generator_
  { p.1 with uniform_generator_ := p.2 }

/-- One Initialize call of a call sequence. -/
def stepCall (env : MockExpectedImprovementEnvironment) (c : ℤ × ℤ × ℤ) :
    MockExpectedImprovementEnvironment :=
  InitializeEnvSelf env c.1 c.2.1 c.2.2

/-- The four buffers have exactly the sizes implied by the current size
fields: dim·num_to_sample, dim·num_sampled, num_sampled and dim. -/
def exactSizes (env : MockExpectedImprovementEnvironment) : Prop :=
  env.points_to_sample_.length = (env.dim * env.num_to_sample).toNat
  ∧ env.points_sampled_.length = (env.dim * env.num_sampled).toNat
  ∧ env.points_sampled_value_.length = env.num_sampled.toNat
  ∧ env.current_point_.length = env.dim.toNat

lemma drawList_fst_length (r : ℝ × ℝ) (g : UniformRandomGenerator) (n : ℕ) :
    (drawList r g n).1.length = n := by
  rw [drawList_closed]
  simp

lemma resizeBuffers_exactSizes (env : MockExpectedImprovementEnvironment)
    (d n s : ℤ) : exactSizes (resizeBuffers env d n s) := by
  refine ⟨?_, ?_, ?_, ?_⟩ <;>
    simp [resizeBuffers, resizeList_length, Int.mul_comm]

lemma refillBuffers_fst (env : MockExpectedImprovementEnvironment)
    (g : UniformRandomGenerator) (h : exactSizes env) :
    (refillBuffers env g).1 =
      { env with
        points_to_sample_ := (drawList env.uniform_double_ g
          ((env.dim * env.num_to_sample).toNat)).1
        points_sampled_ := (drawList env.uniform_double_
          (drawList env.uniform_double_ g ((env.dim * env.num_to_sample).toNat)).2
          ((env.dim * env.num_sampled).toNat)).1
        points_sampled_value_ := (drawList env.uniform_double_
          (drawList env.uniform_double_
            (drawList env.uniform_double_ g ((env.dim * env.num_to_sample).toNat)).2
            ((env.dim * env.num_sampled).toNat)).2
          (env.num_sampled.toNat)).1
        current_point_ := (drawList env.uniform_double_
          (drawList env.uniform_double_
            (drawList env.uniform_double_
              (drawList env.uniform_double_ g ((env.dim * env.num_to_sample).toNat)).2
              ((env.dim * env.num_sampled).toNat)).2
            (env.num_sampled.toNat)).2
          (env.dim.toNat)).1 } := by
  obtain ⟨h1, h2, h3, h4⟩ := h
  simp only [refillBuffers]
  congr 1 <;>
    refine fillFirst_of_length_eq _ _ ?_ <;>
      rw [drawList_fst_length]
  · exact h1.symm
  · exact h2.symm
  · exact h3.symm
  · exact h4.symm

lemma refillBuffers_snd (env : MockExpectedImprovementEnvironment)
    (g : UniformRandomGenerator) :
    (refillBuffers env g).2 =
      { g with pos := g.pos + ((env.dim * env.num_to_sample).toNat
        + ((env.dim * env.num_sampled).toNat
          + (env.num_sampled.toNat + env.dim.toNat))) } := by
  simp only [refillBuffers, drawList_closed]
  congr 1
  omega

lemma refillBuffers_exactSizes (env : MockExpectedImprovementEnvironment)
    (g : UniformRandomGenerator) (h : exactSizes env) :
    exactSizes (refillBuffers env g).1 := by
  rw [refillBuffers_fst env g h]
  refine ⟨?_, ?_, ?_, ?_⟩ <;> simp [drawList_fst_length]

/-- After InitializeEnv from a state that either triggers a resize or already
has exact sizes, the fixture's size fields are the call's parameters, the
buffers are exactly sized, and range and owned generator are untouched. -/
lemma InitializeEnv_shape (env : MockExpectedImprovementEnvironment)
    (d n s : ℤ) (g : UniformRandomGenerator)
    (h : resizeTriggered env d n s ∨ exactSizes env) :
    exactSizes (InitializeEnv env d n s g).1
    ∧ (InitializeEnv env d n s g).1.dim = d
    ∧ (InitializeEnv env d n s g).1.num_to_sample = n
    ∧ (InitializeEnv env d n s g).1.num_sampled = s
    ∧ (InitializeEnv env d n s g).1.uniform_double_ = env.uniform_double_
    ∧ (InitializeEnv env d n s g).1.uniform_generator_
        = env.uniform_generator_ := by
  by_cases ht : resizeTriggered env d n s
  · have henv1 : exactSizes (resizeBuffers env d n s) :=
      resizeBuffers_exactSizes env d n s
    rw [InitializeEnv, if_pos ht, refillBuffers_fst _ g henv1]
    refine ⟨?_, rfl, rfl, rfl, rfl, rfl⟩
    refine ⟨?_, ?_, ?_, ?_⟩ <;> simp [drawList_fst_length, resizeBuffers]
  · have hex : exactSizes env := h.resolve_left ht
    have hfields : env.dim = d ∧ env.num_to_sample = n ∧ env.num_sampled = s := by
      rw [resizeTriggered] at ht
      push_neg at ht
      exact ⟨ht.1.symm, ht.2.1.symm, ht.2.2.symm⟩
    rw [InitializeEnv, if_neg ht, refillBuffers_fst _ g hex]
    obtain ⟨hd, hn, hs⟩ := hfields
    refine ⟨?_, hd, hn, hs, rfl, rfl⟩
    refine ⟨?_, ?_, ?_, ?_⟩ <;> simp [drawList_fst_length]

lemma stepCall_shape (env : MockExpectedImprovementEnvironment) (c : ℤ × ℤ × ℤ)
    (h : resizeTriggered env c.1 c.2.1 c.2.2 ∨ exactSizes env) :
    exactSizes (stepCall env c)
    ∧ (stepCall env c).dim = c.1
    ∧ (stepCall env c).num_to_sample = c.2.1
    ∧ (stepCall env c).num_sampled = c.2.2 := by
  obtain ⟨hex, hd, hn, hs, _, _⟩ :=
    InitializeEnv_shape env c.1 c.2.1 c.2.2 env.uniform_generator_ h
  rw [stepCall, InitializeEnvSelf]
  exact ⟨⟨hex.1, hex.2.1, hex.2.2.1, hex.2.2.2⟩, hd, hn, hs⟩

/-- The invariant maintained along any sequence of nonnegative Initialize
calls: the fixture has exact buffer sizes, or it is still in its constructed
state with the negative sentinel dimension (so any nonnegative call triggers
the resize). -/
lemma foldl_stepCall_inv (calls : List (ℤ × ℤ × ℤ))
    (env : MockExpectedImprovementEnvironment)
    (hc : ∀ c ∈ calls, 0 ≤ c.1 ∧ 0 ≤ c.2.1 ∧ 0 ≤ c.2.2)
    (henv : exactSizes env ∨ env.dim < 0) :
    exactSizes (List.foldl stepCall env calls)
      ∨ (List.foldl stepCall env calls).dim < 0 := by
  induction calls generalizing env with
  | nil => exact henv
  | cons c cs ih =>
    rw [List.foldl_cons]
    refine ih (stepCall env c) (fun x hx => hc x (List.mem_cons_of_mem c hx)) ?_
    have hcnn := hc c (List.mem_cons_self c cs)
    have harg : resizeTriggered env c.1 c.2.1 c.2.2 ∨ exactSizes env := by
      rcases henv with hex | hneg
      · exact Or.inr hex
      · refine Or.inl (Or.inl ?_)
        omega
    exact Or.inl (stepCall_shape env c harg).1

/-- Claim C7: after every nonempty sequence of Initialize calls with
nonnegative size parameters, the four buffers have exactly the sizes
dim·num_to_sample, dim·num_sampled, num_sampled and dim implied by the most
recent call; and when none of the three size parameters differs from the
fixture's current values (on a fixture with exact sizes), no buffer changes
its size — the resize branch is only taken when a parameter differs. -/
theorem claim_C7 (engine : ℕ → ℝ) (pre : List (ℤ × ℤ × ℤ)) (c : ℤ × ℤ × ℤ)
    (hpre : ∀ x ∈ pre, 0 ≤ x.1 ∧ 0 ≤ x.2.1 ∧ 0 ≤ x.2.2)
    (hc1 : 0 ≤ c.1) (_hc2 : 0 ≤ c.2.1) (_hc3 : 0 ≤ c.2.2) :
    ((List.foldl stepCall (MockExpectedImprovementEnvironment.construct engine)
        (pre ++ [c])).points_to_sample_.length = (c.1 * c.2.1).toNat
      ∧ (List.foldl stepCall (MockExpectedImprovementEnvironment.construct engine)
        (pre ++ [c])).points_sampled_.length = (c.1 * c.2.2).toNat
      ∧ (List.foldl stepCall (MockExpectedImprovementEnvironment.construct engine)
        (pre ++ [c])).points_sampled_value_.length = c.2.2.toNat
      ∧ (List.foldl stepCall (MockExpectedImprovementEnvironment.construct engine)
        (pre ++ [c])).current_point_.length = c.1.toNat)
    ∧ ∀ (env : MockExpectedImprovementEnvironment) (d n s : ℤ)
        (g : UniformRandomGenerator), exactSizes env →
        d = env.dim → n = env.num_to_sample → s = env.num_sampled →
        ((InitializeEnv env d n s g).1.points_to_sample_.length
            = env.points_to_sample_.length
          ∧ (InitializeEnv env d n s g).1.points_sampled_.length
            = env.points_sampled_.length
          ∧ (InitializeEnv env d n s g).1.points_sampled_value_.length
            = env.points_sampled_value_.length
          ∧ (InitializeEnv env d n s g).1.current_point_.length
            = env.current_point_.length) := by
  constructor
  · rw [List.foldl_append, List.foldl_cons, List.foldl_nil]
    have hinv := foldl_stepCall_inv pre
      (MockExpectedImprovementEnvironment.construct engine) hpre
      (Or.inr (by rw [MockExpectedImprovementEnvironment.construct]; norm_num))
    have harg : resizeTriggered (List.foldl stepCall
        (MockExpectedImprovementEnvironment.construct engine) pre) c.1 c.2.1 c.2.2
        ∨ exactSizes (List.foldl stepCall
          (MockExpectedImprovementEnvironment.construct engine) pre) := by
      rcases hinv with hex | hneg
      · exact Or.inr hex
      · refine Or.inl (Or.inl ?_)
        omega
    obtain ⟨⟨e1, e2, e3, e4⟩, hd, hn, hs⟩ := stepCall_shape _ c harg
    rw [e1, e2, e3, e4, hd, hn, hs]
    exact ⟨rfl, rfl, rfl, rfl⟩
  · intro env d n s g hex hd hn hs
    have hnt : ¬ resizeTriggered env d n s := by
      rw [resizeTriggered]
      push_neg
      exact ⟨hd, hn, hs⟩
    obtain ⟨h1, h2, h3, h4⟩ := hex
    rw [InitializeEnv, if_neg hnt, refillBuffers_fst env g ⟨h1, h2, h3, h4⟩]
    refine ⟨?_, ?_, ?_, ?_⟩ <;> simp [drawList_fst_length] <;> omega

/-- Witness for claim C7: one call Initialize(3, 2, 5) on a fresh fixture
leaves points_to_sample_ with exactly 3·2 = 6 entries. -/
theorem claim_C7_witness :
    (List.foldl stepCall
      (MockExpectedImprovementEnvironment.construct (fun _ => (1 : ℝ) / 2))
      ([] ++ [((3 : ℤ), (2 : ℤ), (5 : ℤ))])).points_to_sample_.length
      = ((3 : ℤ) * 2).toNat :=
  (claim_C7 (fun _ => (1 : ℝ) / 2) [] (3, 2, 5) (by simp)
    (by norm_num) (by norm_num) (by norm_num)).1.1

/-- Closed form of one refill pass on an exactly sized fixture whose stored
range is [range_min, range_max]: the four buffers become the four consecutive
blocks of uniform draws, in order, and the generator advances once per
scalar. -/
lemma refill_closed (env1 : MockExpectedImprovementEnvironment)
    (g : UniformRandomGenerator) (hex : exactSizes env1)
    (hr : env1.uniform_double_ = (range_min, range_max)) :
    (refillBuffers env1 g).1.points_to_sample_
      = List.ofFn (fun j : Fin ((env1.dim * env1.num_to_sample).toNat) =>
          range_min + (range_max - range_min) * g.engine (g.pos + j))
    ∧ (refillBuffers env1 g).1.points_sampled_
      = List.ofFn (fun j : Fin ((env1.dim * env1.num_sampled).toNat) =>
          range_min + (range_max - range_min)
            * g.engine (g.pos + (env1.dim * env1.num_to_sample).toNat + j))
    ∧ (refillBuffers env1 g).1.points_sampled_value_
      = List.ofFn (fun j : Fin (env1.num_sampled.toNat) =>
          range_min + (range_max - range_min)
            * g.engine (g.pos + (env1.dim * env1.num_to_sample).toNat
              + (env1.dim * env1.num_sampled).toNat + j))
    ∧ (refillBuffers env1 g).1.current_point_
      = List.ofFn (fun j : Fin (env1.dim.toNat) =>
          range_min + (range_max - range_min)
            * g.engine (g.pos + (env1.dim * env1.num_to_sample).toNat
              + (env1.dim * env1.num_sampled).toNat + env1.num_sampled.toNat + j))
    ∧ (refillBuffers env1 g).2.pos
        = g.pos + ((env1.dim * env1.num_to_sample).toNat
          + ((env1.dim * env1.num_sampled).toNat
            + (env1.num_sampled.toNat + env1.dim.toNat)))
    ∧ (refillBuffers env1 g).2.engine = g.engine
    ∧ (refillBuffers env1 g).2.seed = g.seed := by
  have hfst := refillBuffers_fst env1 g hex
  have hsnd := refillBuffers_snd env1 g
  refine ⟨?_, ?_, ?_, ?_, ?_, ?_, ?_⟩
  · rw [hfst]
    simp [drawList_closed, hr]
  · rw [hfst]
    simp [drawList_closed, hr]
  · rw [hfst]
    simp [drawList_closed, hr, Nat.add_assoc]
  · rw [hfst]
    simp [drawList_closed, hr, Nat.add_assoc]
  · rw [hsnd]
  · rw [hsnd]
  · rw [hsnd]

/-- Closed form of InitializeEnv under the reachable-state hypothesis: the
four buffers are the four consecutive blocks of dim·num_to_sample,
dim·num_sampled, num_sampled and dim uniform draws, and the generator has
advanced exactly once per generated scalar. -/
lemma InitializeEnv_closed (env : MockExpectedImprovementEnvironment)
    (d n s : ℤ) (g : UniformRandomGenerator)
    (hrange : env.uniform_double_ = (range_min, range_max))
    (h : resizeTriggered env d n s ∨ exactSizes env) :
    (InitializeEnv env d n s g).1.points_to_sample_
      = List.ofFn (fun j : Fin ((d * n).toNat) =>
          range_min + (range_max - range_min) * g.engine (g.pos + j))
    ∧ (InitializeEnv env d n s g).1.points_sampled_
      = List.ofFn (fun j : Fin ((d * s).toNat) =>
          range_min + (range_max - range_min)
            * g.engine (g.pos + (d * n).toNat + j))
    ∧ (InitializeEnv env d n s g).1.points_sampled_value_
      = List.ofFn (fun j : Fin (s.toNat) =>
          range_min + (range_max - range_min)
            * g.engine (g.pos + (d * n).toNat + (d * s).toNat + j))
    ∧ (InitializeEnv env d n s g).1.current_point_
      = List.ofFn (fun j : Fin (d.toNat) =>
          range_min + (range_max - range_min)
            * g.engine (g.pos + (d * n).toNat + (d * s).toNat + s.toNat + j))
    ∧ (InitializeEnv env d n s g).2.pos
        = g.pos + ((d * n).toNat + ((d * s).toNat + (s.toNat + d.toNat)))
    ∧ (InitializeEnv env d n s g).2.engine = g.engine
    ∧ (InitializeEnv env d n s g).2.seed = g.seed := by
  by_cases ht : resizeTriggered env d n s
  · rw [InitializeEnv, if_pos ht]
    have hex := resizeBuffers_exactSizes env d n s
    have hr1 : (resizeBuffers env d n s).uniform_double_
        = (range_min, range_max) := hrange
    exact refill_closed (resizeBuffers env d n s) g hex hr1
  · have hex : exactSizes env := h.resolve_left ht
    have hfields : d = env.dim ∧ n = env.num_to_sample ∧ s = env.num_sampled := by
      rw [resizeTriggered] at ht
      push_neg at ht
      exact ht
    obtain ⟨hd, hn, hs⟩ := hfields
    subst hd
    subst hn
    subst hs
    rw [InitializeEnv, if_neg ht]
    exact refill_closed env g hex hrange

/-- An element of an affine image of engine draws lies in
[range_min, range_max] when every raw engine output lies in [0, 1]. -/
lemma ofFn_affine_mem (m : ℕ) (e : ℕ → ℝ) (off : ℕ)
    (hbound : ∀ q, 0 ≤ e q ∧ e q ≤ 1) (x : ℝ)
    (hx : x ∈ List.ofFn (fun j : Fin m =>
      range_min + (range_max - range_min) * e (off + j))) :
    range_min ≤ x ∧ x ≤ range_max := by
  obtain ⟨j, hj⟩ := (List.mem_ofFn _ _).mp hx
  obtain ⟨hb0, hb1⟩ := hbound (off + j)
  have hxval : x = range_min + (range_max - range_min) * e (off + (j : ℕ)) :=
    hj.symm
  rw [hxval, range_min, range_max]
  constructor <;> nlinarith

/-- Claim C8: every Initialize call — resize or not — overwrites all four
buffers with the uniform draws from [range_min, range_max] = [−5, 5], in the
fixed order points_to_sample_, points_sampled_, points_sampled_value_,
current_point_, advancing the generator exactly once per scalar
(dim·num_to_sample + dim·num_sampled + num_sampled + dim advances in total);
every generated scalar lies in [−5, 5] when the raw engine outputs lie in
[0, 1].  Hypotheses: the fixture's stored range is the constructed one and
the fixture either triggers the resize or has exactly sized buffers (both
hold in every reachable state). -/
theorem claim_C8 (env : MockExpectedImprovementEnvironment)
    (d n s : ℤ) (g : UniformRandomGenerator)
    (hrange : env.uniform_double_ = (range_min, range_max))
    (h : resizeTriggered env d n s ∨ exactSizes env) :
    (InitializeEnv env d n s g).1.points_to_sample_
      = List.ofFn (fun j : Fin ((d * n).toNat) =>
          range_min + (range_max - range_min) * g.engine (g.pos + j))
    ∧ (InitializeEnv env d n s g).1.points_sampled_
      = List.ofFn (fun j : Fin ((d * s).toNat) =>
          range_min + (range_max - range_min)
            * g.engine (g.pos + (d * n).toNat + j))
    ∧ (InitializeEnv env d n s g).1.points_sampled_value_
      = List.ofFn (fun j : Fin (s.toNat) =>
          range_min + (range_max - range_min)
            * g.engine (g.pos + (d * n).toNat + (d * s).toNat + j))
    ∧ (InitializeEnv env d n s g).1.current_point_
      = List.ofFn (fun j : Fin (d.toNat) =>
          range_min + (range_max - range_min)
            * g.engine (g.pos + (d * n).toNat + (d * s).toNat + s.toNat + j))
    ∧ (InitializeEnv env d n s g).2.pos
        = g.pos + ((d * n).toNat + ((d * s).toNat + (s.toNat + d.toNat)))
    ∧ (InitializeEnv env d n s g).2.engine = g.engine
    ∧ ((∀ q, 0 ≤ g.engine q ∧ g.engine q ≤ 1) →
        ∀ x, (x ∈ (InitializeEnv env d n s g).1.points_to_sample_
            ∨ x ∈ (InitializeEnv env d n s g).1.points_sampled_
            ∨ x ∈ (InitializeEnv env d n s g).1.points_sampled_value_
            ∨ x ∈ (InitializeEnv env d n s g).1.current_point_) →
          range_min ≤ x ∧ x ≤ range_max) := by
  obtain ⟨b1, b2, b3, b4, hpos, heng, _⟩ :=
    InitializeEnv_closed env d n s g hrange h
  refine ⟨b1, b2, b3, b4, hpos, heng, ?_⟩
  intro hbound x hx
  rcases hx with hx | hx | hx | hx
  · rw [b1] at hx
    exact ofFn_affine_mem _ g.engine g.pos hbound x hx
  · rw [b2] at hx
    exact ofFn_affine_mem _ g.engine (g.pos + (d * n).toNat) hbound x hx
  · rw [b3] at hx
    exact ofFn_affine_mem _ g.engine
      (g.pos + (d * n).toNat + (d * s).toNat) hbound x hx
  · rw [b4] at hx
    exact ofFn_affine_mem _ g.engine
      (g.pos + (d * n).toNat + (d * s).toNat + s.toNat) hbound x hx

/-- Witness for claim C8: Initialize(1, 1, 1) on a fresh fixture with the
constant-half engine fills points_to_sample_ with the single scalar drawn at
engine position 0. -/
theorem claim_C8_witness :
    (InitializeEnv
      (MockExpectedImprovementEnvironment.construct (fun _ => (1 : ℝ) / 2))
      1 1 1 ⟨kDefaultSeed, fun _ => (1 : ℝ) / 2, 0⟩).1.points_to_sample_
      = List.ofFn (fun j : Fin (((1 : ℤ) * 1).toNat) =>
          range_min + (range_max - range_min)
            * (fun _ => (1 : ℝ) / 2)
              ((⟨kDefaultSeed, fun _ => (1 : ℝ) / 2, 0⟩ :
                UniformRandomGenerator).pos + j)) :=
  (claim_C8 (MockExpectedImprovementEnvironment.construct (fun _ => (1 : ℝ) / 2))
    1 1 1 ⟨kDefaultSeed, fun _ => (1 : ℝ) / 2, 0⟩ rfl
    (Or.inl (Or.inl (by norm_num [MockExpectedImprovementEnvironment.construct])))).1

/-- Claim C10: the default constructor sets all three size fields to the
sentinel −1, pre-allocates the four buffers to 80, 80, 20 and 4 entries, and
prepares the owned generator with the fixed seed kDefaultSeed = 314 and the
uniform range [range_min, range_max] = [−5, 5]. -/
theorem claim_C10 (engine : ℕ → ℝ) :
    (MockExpectedImprovementEnvironment.construct engine).dim = -1
    ∧ (MockExpectedImprovementEnvironment.construct engine).num_to_sample = -1
    ∧ (MockExpectedImprovementEnvironment.construct engine).num_sampled = -1
    ∧ (MockExpectedImprovementEnvironment.construct
        engine).points_to_sample_.length = 80
    ∧ (MockExpectedImprovementEnvironment.construct
        engine).points_sampled_.length = 80
    ∧ (MockExpectedImprovementEnvironment.construct
        engine).points_sampled_value_.length = 20
    ∧ (MockExpectedImprovementEnvironment.construct
        engine).current_point_.length = 4
    ∧ (MockExpectedImprovementEnvironment.construct
        engine).uniform_generator_.seed = kDefaultSeed
    ∧ kDefaultSeed = 314
    ∧ (MockExpectedImprovementEnvironment.construct
        engine).uniform_generator_.pos = 0
    ∧ (MockExpectedImprovementEnvironment.construct engine).uniform_double_
        = (range_min, range_max)
    ∧ range_min = -5
    ∧ range_max = 5 := by
  refine ⟨rfl, rfl, rfl, ?_, ?_, ?_, ?_, rfl, rfl, rfl, rfl, rfl, rfl⟩ <;>
    simp [MockExpectedImprovementEnvironment.construct]

end optimal_learning
